import Mathlib

/-!
Verification of the MLS-MPM particle-simulation core of
`src/js/particle-simulation.js`: the fixed-point codec, the P2G/G2P
stencil arithmetic, the grid-update kernel, the morph state machine and
the pointer-force clamp.  All real-valued shader quantities are modelled
exactly over `ℚ`; the pointer-force magnitude, which needs a square
root, is modelled over `ℝ`.
-/

namespace ParticleSim

/-! ### Fixed-point codec (source lines 291 and 639–645) -/

/-- `fixedPointMultiplier = 1e7` (line 291). -/
def fixedPointMultiplier : ℚ := 10000000

/-- WGSL `int()` conversion of a float value: truncation toward zero. -/
def truncZ (q : ℚ) : ℤ := if 0 ≤ q then ⌊q⌋ else ⌈q⌉

/-- `encodeFixedPoint` (line 639): `int(f32 * fixedPointMultiplier)`. -/
def encodeFixedPoint (f : ℚ) : ℤ := truncZ (f * fixedPointMultiplier)

/-- `decodeFixedPoint` (line 643): `float(i32) / fixedPointMultiplier`. -/
def decodeFixedPoint (i : ℤ) : ℚ := (i : ℚ) / fixedPointMultiplier

theorem abs_truncZ_sub_lt_one (x : ℚ) : |(truncZ x : ℚ) - x| < 1 := by
  unfold truncZ
  split
  · rw [abs_sub_comm, abs_of_nonneg (sub_nonneg.2 (Int.floor_le x))]
    have := Int.lt_floor_add_one x
    linarith
  · rw [abs_of_nonneg (sub_nonneg.2 (Int.le_ceil x))]
    have := Int.ceil_lt_add_one x
    linarith

theorem truncZ_of_nonneg {x : ℚ} (h : 0 ≤ x) : truncZ x = ⌊x⌋ := by
  simp [truncZ, h]

/-- C2 fails on the code: the encoder is `int()` truncation, not rounding.
At r = 9·10⁻⁸ the encoder truncates 0.9 to 0 where rounding gives 1, and the
round-trip error 9·10⁻⁸ exceeds 0.5·10⁻⁷. -/
theorem codec_round_claim_counterexample :
    encodeFixedPoint (9 / 100000000) ≠
      round ((9 / 100000000 : ℚ) * fixedPointMultiplier) ∧
    ¬ |decodeFixedPoint (encodeFixedPoint (9 / 100000000)) - 9 / 100000000| ≤
        1 / 2 / fixedPointMultiplier := by
  have h1 : encodeFixedPoint (9 / 100000000) = 0 := by
    unfold encodeFixedPoint truncZ fixedPointMultiplier
    norm_num
  constructor
  · rw [h1]
    unfold fixedPointMultiplier
    rw [round_eq]
    norm_num
  · rw [h1]
    unfold decodeFixedPoint fixedPointMultiplier
    norm_num
    rw [abs_of_pos (by norm_num : (0 : ℚ) < 9 / 100000000)]
    norm_num

/-- C2 (amended): `encodeFixedPoint r` is truncation toward zero of
`r * SCALE`, and the decode-encode round trip satisfies the weaker bound
`|decode (encode r) - r| < 1/SCALE` for every rational `r`. -/
theorem codec_truncation_roundtrip (r : ℚ) :
    encodeFixedPoint r = truncZ (r * fixedPointMultiplier) ∧
    |decodeFixedPoint (encodeFixedPoint r) - r| < 1 / fixedPointMultiplier := by
  have hM : (0 : ℚ) < fixedPointMultiplier := by norm_num [fixedPointMultiplier]
  refine ⟨rfl, ?_⟩
  have h := abs_truncZ_sub_lt_one (r * fixedPointMultiplier)
  have heq : decodeFixedPoint (encodeFixedPoint r) - r =
      ((truncZ (r * fixedPointMultiplier) : ℚ) - r * fixedPointMultiplier) /
        fixedPointMultiplier := by
    unfold decodeFixedPoint encodeFixedPoint
    field_simp
    ring
  rw [heq, abs_div, abs_of_pos hM, div_lt_div_iff_of_pos_right hM]
  exact h

/-! ### Grid geometry and the quadratic B-spline stencil
(lines 289–291 and 677–711; the same mapping is recomputed in `p2g2Kernel`
lines 734–745 and `g2pKernel` lines 860–873) -/

/-- A 3-component vector of exact shader reals. -/
abbrev Vec3 := Fin 3 → ℚ

/-- `gridPosition = particlePosition * gridSizeUniform`, with
`gridSize = (64, 64, 64)` (lines 289–290, 677). -/
def gridPosition (p : Vec3) : Vec3 := fun a => p a * 64

/-- `cellIndex = ivec3(gridPosition) - 1` (line 678); the WGSL `ivec3`
conversion truncates toward zero. -/
def cellIndex (p : Vec3) (a : Fin 3) : ℤ := truncZ (gridPosition p a) - 1

/-- `cellDiff = gridPosition.fract() - 0.5` (line 679). -/
def cellDiff (p : Vec3) (a : Fin 3) : ℚ := Int.fract (gridPosition p a) - 1/2

/-- Axis weight `w0 = 0.5 * (0.5 - d) * (0.5 - d)` (lines 680–682). -/
def w0 (d : ℚ) : ℚ := 1/2 * (1/2 - d) * (1/2 - d)

/-- Axis weight `w1 = 0.75 - d * d` (line 683). -/
def w1 (d : ℚ) : ℚ := 3/4 - d * d

/-- Axis weight `w2 = 0.5 * (0.5 + d) * (0.5 + d)` (lines 684–686). -/
def w2 (d : ℚ) : ℚ := 1/2 * (1/2 + d) * (1/2 + d)

/-- The `weights` array `[w0, w1, w2]` (line 687). -/
def axisWeights (d : ℚ) : Fin 3 → ℚ := ![w0 d, w1 d, w2 d]

/-- A stencil loop index `(gx, gy, gz)`, each in `{0, 1, 2}`. -/
abbrev Offset := Fin 3 × Fin 3 × Fin 3

/-- The 27 loop indices of the triple loop (lines 689–691), in loop order
(`gx` outermost, `gz` innermost). -/
def stencilIdx : List Offset :=
  [(0, 0, 0), (0, 0, 1), (0, 0, 2), (0, 1, 0), (0, 1, 1), (0, 1, 2),
   (0, 2, 0), (0, 2, 1), (0, 2, 2),
   (1, 0, 0), (1, 0, 1), (1, 0, 2), (1, 1, 0), (1, 1, 1), (1, 1, 2),
   (1, 2, 0), (1, 2, 1), (1, 2, 2),
   (2, 0, 0), (2, 0, 1), (2, 0, 2), (2, 1, 0), (2, 1, 1), (2, 1, 2),
   (2, 2, 0), (2, 2, 1), (2, 2, 2)]

/-- `weight = weights[gx].x * weights[gy].y * weights[gz].z` (lines 692–695). -/
def weightOf (p : Vec3) (o : Offset) : ℚ :=
  axisWeights (cellDiff p 0) o.1 * axisWeights (cellDiff p 1) o.2.1 *
    axisWeights (cellDiff p 2) o.2.2

/-- The loop index as an integer vector `ivec3(gx, gy, gz)`. -/
def offVec (o : Offset) : Fin 3 → ℤ := ![(o.1.val : ℤ), (o.2.1.val : ℤ), (o.2.2.val : ℤ)]

/-- `cellX = cellIndex + ivec3(gx, gy, gz)` (line 696). -/
def cellX (p : Vec3) (o : Offset) (a : Fin 3) : ℤ := cellIndex p a + offVec o a

/-- Flattened grid-buffer index
`cellPtr = cellX.x * (gridSize.y * gridSize.z) + cellX.y * gridSize.z + cellX.z`
(lines 707–711). -/
def cellPtr (p : Vec3) (o : Offset) : ℤ :=
  cellX p o 0 * (64 * 64) + cellX p o 1 * 64 + cellX p o 2

/-- `cellDist = vec3(cellX) + 0.5 - gridPosition` (lines 697–700). -/
def cellDist (p : Vec3) (o : Offset) (a : Fin 3) : ℚ :=
  (cellX p o a : ℚ) + 1/2 - gridPosition p a

/-- Number of grid cells `gridSize.x * gridSize.y * gridSize.z` (line 595). -/
def cellCount : ℤ := 64 * 64 * 64

/-! ### The G2P position clamp (lines 1001–1009) -/

/-- Lower clamp bound `0.5 / gridSize` per axis (line 1006). -/
def clampLo : ℚ := (1/2) / 64

/-- Upper clamp bound `(gridSize - 1) / gridSize` per axis (line 1007). -/
def clampHi : ℚ := (64 - 1) / 64

/-- WGSL `clamp(x, lo, hi) = min(max(x, lo), hi)`. -/
def clampQ (lo hi x : ℚ) : ℚ := min hi (max lo x)

/-- The per-axis bounds produced by the G2P clamp. -/
def inClampBounds (p : Vec3) : Prop := ∀ a, clampLo ≤ p a ∧ p a ≤ clampHi

/-- `particlePosition += particleVelocity * dt` followed by the clamp
(lines 1001–1009), per axis. -/
def g2pIntegratePosition (pos vel : Vec3) (dt : ℚ) : Vec3 :=
  fun a => clampQ clampLo clampHi (pos a + vel a * dt)

/-- C1 fails on the code: the position `(0.5/64, 0.5, 0.5)` satisfies the
per-axis clamp bounds (its x component sits exactly at the lower bound), yet
the stencil base index on x is `trunc(0.5) - 1 = -1`, so the flattened index
of offset `(0,0,0)` is `-2081`, outside `[0, cellCount)`, while its
B-spline weight `1/32` is nonzero. -/
theorem stencil_escapes_at_clamp_bound :
    inClampBounds ![1/128, 1/2, 1/2] ∧
    cellPtr ![1/128, 1/2, 1/2] (0, 0, 0) = -2081 ∧
    ¬ (0 ≤ cellPtr ![1/128, 1/2, 1/2] (0, 0, 0) ∧
        cellPtr ![1/128, 1/2, 1/2] (0, 0, 0) < cellCount) ∧
    weightOf ![1/128, 1/2, 1/2] (0, 0, 0) = 1/32 := by
  have hptr : cellPtr ![1/128, 1/2, 1/2] (0, 0, 0) = -2081 := by
    unfold cellPtr cellX cellIndex offVec gridPosition truncZ
    norm_num [Matrix.cons_val_zero, Matrix.cons_val_one, Matrix.head_cons,
      Matrix.cons_val_two, Matrix.vecTail, Matrix.vecHead]
  refine ⟨?_, hptr, ?_, ?_⟩
  · intro a
    unfold clampLo clampHi
    fin_cases a <;> norm_num
  · rw [hptr]
    unfold cellCount
    norm_num
  · unfold weightOf axisWeights cellDiff gridPosition w0 w1 w2
    norm_num [Matrix.cons_val_zero, Matrix.cons_val_one, Matrix.head_cons,
      Matrix.cons_val_two, Matrix.vecTail, Matrix.vecHead, Int.fract]

/-- C4 (amended): after the G2P integration-and-clamp step every position
component lies in `[0.5/64, 63/64]`, i.e. the upper bound is
`1 - 1/gridSize`, not the claimed `1 - 1.5/gridSize`. -/
theorem g2p_position_clamp_bounds (pos vel : Vec3) (dt : ℚ) (a : Fin 3) :
    clampLo ≤ g2pIntegratePosition pos vel dt a ∧
      g2pIntegratePosition pos vel dt a ≤ 63 / 64 := by
  unfold g2pIntegratePosition clampQ
  constructor
  · exact le_min (by norm_num [clampLo, clampHi]) (le_max_left _ _)
  · exact min_le_of_left_le (by norm_num [clampHi])

/-- C4 fails as stated: a particle at `x = 1/2` hit by grid-space velocity
`40` for one frame (`dt = 1/60`) is clamped to `63/64`, which exceeds the
claimed bound `1 - 1.5/64`. -/
theorem g2p_position_claim_counterexample :
    inClampBounds (fun _ => 1/2) ∧
    ¬ g2pIntegratePosition (fun _ => 1/2) (fun _ => 40) (1/60) 0 ≤
        1 - (3/2) / 64 := by
  constructor
  · intro a
    norm_num [clampLo, clampHi]
  · unfold g2pIntegratePosition clampQ clampLo clampHi
    norm_num

/-! ### Morph state machine (lines 49–57, 95–110, 151–154)

`fullRotation = Math.PI * 2` is irrational; the state machine's behaviour
depends on it only through the comparison `autoMorphRotation >= fullRotation`,
so it is kept as a parameter `R` of the step functions. -/

/-- The mutable morph state: `autoMorphRotation`, `currentShapeIndex`,
`nextShapeIndex`, `morphProgress` (lines 49, 54–56). -/
structure MorphState where
  auto : ℚ
  cur : ℕ
  next : ℕ
  prog : ℚ
deriving DecidableEq

/-- `startMorph` (lines 151–154): reset progress, advance the next shape
cyclically. -/
def startMorph (s : MorphState) : MorphState :=
  { s with prog := 0, next := (s.cur + 1) % 3 }

/-- First block of `updateMorphing` (lines 96–101): accumulate the rotation
delta and fire `startMorph` when the accumulator reaches `fullRotation = R`,
resetting the accumulator to 0. -/
def triggerPhase (R rot : ℚ) (s : MorphState) : MorphState :=
  if R ≤ s.auto + rot then startMorph { s with auto := 0 }
  else { s with auto := s.auto + rot }

/-- Second block of `updateMorphing` (lines 103–109): while progress is
below 1, raise it by `deltaTime / morphDuration`; on reaching 1 saturate it
and commit `currentShapeIndex := nextShapeIndex`. -/
def progressPhase (dt : ℚ) (s : MorphState) : MorphState :=
  if s.prog < 1 then
    if 1 ≤ s.prog + dt / (3/10) then { s with prog := 1, cur := s.next }
    else { s with prog := s.prog + dt / (3/10) }
  else s

/-- `updateMorphing(deltaTime, rotationDelta)` (lines 95–110),
with `morphDuration = 0.3` (line 57). -/
def updateMorphing (R dt rot : ℚ) (s : MorphState) : MorphState :=
  progressPhase dt (triggerPhase R rot s)

/-- The module-level initial state (lines 49, 54–56):
`currentShapeIndex = 0`, `nextShapeIndex = 1`, `morphProgress = 0`,
`autoMorphRotation = 0`. -/
def initMorphState : MorphState := ⟨0, 0, 1, 0⟩

/-- Run `updateMorphing` over a list of `(deltaTime, rotationDelta)` frames. -/
def runMorph (R : ℚ) (frames : List (ℚ × ℚ)) (s : MorphState) : MorphState :=
  frames.foldl (fun s f => updateMorphing R f.1 f.2 s) s

/-- A frame schedule driving three full morph cycles at `dt = 1/10`,
`R = 1`: three plain frames complete the initial 0→1 morph, then each
trigger frame (rotation delta 1) plus two plain frames completes one more
cycle. -/
def threeCycleSchedule : List (ℚ × ℚ) :=
  [(1/10, 0), (1/10, 0), (1/10, 0),
   (1/10, 1), (1/10, 0), (1/10, 0),
   (1/10, 1), (1/10, 0), (1/10, 0)]

/-- C8: (i) when the rotation accumulator reaches the full-rotation
threshold, the trigger block resets it to 0, resets progress to 0 and
advances `nextShapeIndex` in cyclic order 0→1→2→0; (ii) while progress is
below 1 each frame raises it by `dt / morphDuration`, saturating at 1, at
which point `currentShapeIndex` becomes `nextShapeIndex`; (iii) a saturated
state is left unchanged; (iv) from the initial state, `morphDuration`
seconds of simulated time (three frames of `dt = 1/10`) make the shape
index 1, and three full trigger-driven cycles return it to 0. -/
theorem morph_state_machine :
    (∀ R rot s, R ≤ s.auto + rot →
      triggerPhase R rot s =
        { auto := 0, cur := s.cur, next := (s.cur + 1) % 3, prog := 0 }) ∧
    (∀ dt s, s.prog < 1 → 1 ≤ s.prog + dt / (3/10) →
      progressPhase dt s = { s with prog := 1, cur := s.next }) ∧
    (∀ dt s, s.prog < 1 → ¬ 1 ≤ s.prog + dt / (3/10) →
      progressPhase dt s = { s with prog := s.prog + dt / (3/10) }) ∧
    (∀ dt s, 1 ≤ s.prog → progressPhase dt s = s) ∧
    (runMorph 1 [(1/10, 0), (1/10, 0), (1/10, 0)] initMorphState).cur = 1 ∧
    (runMorph 1 threeCycleSchedule initMorphState).cur = 0 := by
  refine ⟨?_, ?_, ?_, ?_, ?_, ?_⟩
  · intro R rot s h
    simp [triggerPhase, startMorph, if_pos h]
  · intro dt s h1 h2
    simp [progressPhase, if_pos h1, if_pos h2]
  · intro dt s h1 h2
    simp [progressPhase, if_pos h1, if_neg h2]
  · intro dt s h
    simp [progressPhase, if_neg (not_lt.2 h)]
  · norm_num [runMorph, updateMorphing, triggerPhase, progressPhase,
      startMorph, initMorphState]
  · norm_num [runMorph, threeCycleSchedule, updateMorphing, triggerPhase,
      progressPhase, startMorph, initMorphState]

theorem morph_state_machine_witness :
    (1 : ℚ) ≤ initMorphState.auto + 7 ∧
    triggerPhase 1 7 initMorphState =
      { auto := 0, cur := initMorphState.cur,
        next := (initMorphState.cur + 1) % 3, prog := 0 } ∧
    initMorphState.prog < 1 ∧ (1 : ℚ) ≤ initMorphState.prog + (3/10) / (3/10) ∧
    progressPhase (3/10) initMorphState =
      { initMorphState with prog := 1, cur := initMorphState.next } ∧
    ¬ (1 : ℚ) ≤ initMorphState.prog + (1/10) / (3/10) ∧
    progressPhase (1/10) initMorphState =
      { initMorphState with prog := initMorphState.prog + (1/10) / (3/10) } ∧
    progressPhase (1/10) { initMorphState with prog := 1 } =
      { initMorphState with prog := 1 } := by
  have ha : (1 : ℚ) ≤ initMorphState.auto + 7 := by norm_num [initMorphState]
  have hp : initMorphState.prog < 1 := by norm_num [initMorphState]
  have hs : (1 : ℚ) ≤ initMorphState.prog + (3/10) / (3/10) := by
    norm_num [initMorphState]
  have hn : ¬ (1 : ℚ) ≤ initMorphState.prog + (1/10) / (3/10) := by
    norm_num [initMorphState]
  have hone : (1 : ℚ) ≤ ({ initMorphState with prog := 1 } : MorphState).prog := by
    norm_num
  exact ⟨ha, morph_state_machine.1 1 7 initMorphState ha, hp, hs,
    morph_state_machine.2.1 (3/10) initMorphState hp hs, hn,
    morph_state_machine.2.2.1 (1/10) initMorphState hp hn,
    morph_state_machine.2.2.2.1 (1/10) _ hone⟩

/-- C10: the initial module state is `currentShapeIndex = 0`,
`nextShapeIndex = 1`, `morphProgress = 0`, so the first frames perform a
full 0→1 morph with no trigger: with `dt = 1/10` and no rotation, progress
rises to 1/3 and 2/3 with the shape index still 0 and the rotation
accumulator still 0, and on the third frame progress saturates at 1 and the
shape index becomes 1 — before any trigger and with no explicit morph
call. -/
theorem initial_state_first_morph :
    initMorphState.cur = 0 ∧ initMorphState.next = 1 ∧
    initMorphState.prog = 0 ∧
    runMorph 1 [(1/10, 0)] initMorphState =
      { auto := 0, cur := 0, next := 1, prog := 1/3 } ∧
    runMorph 1 [(1/10, 0), (1/10, 0)] initMorphState =
      { auto := 0, cur := 0, next := 1, prog := 2/3 } ∧
    runMorph 1 [(1/10, 0), (1/10, 0), (1/10, 0)] initMorphState =
      { auto := 0, cur := 1, next := 1, prog := 1 } := by
  refine ⟨rfl, rfl, rfl, ?_, ?_, ?_⟩ <;>
    norm_num [runMorph, updateMorphing, triggerPhase, progressPhase,
      startMorph, initMorphState, MorphState.mk.injEq]

/-! ### Grid accumulator buffer and the P2G kernels
(buffers lines 595–605, clear kernel lines 649–660, `p2g1Kernel`
lines 662–723, `p2g2Kernel` lines 725–815) -/

/-- One accumulator cell of `cellBuffer`: components 0, 1, 2 hold the
fixed-point x/y/z momentum, component 3 the fixed-point mass. -/
abbrev Cell := Fin 4 → ℤ

/-- The grid accumulator buffer, addressed by the flattened `cellPtr`. -/
abbrev Grid := ℤ → Cell

/-- A particle as read by the P2G kernels: `position`, `velocity` and the
affine velocity matrix `C` (lines 511–516). -/
structure Particle where
  position : Vec3
  velocity : Vec3
  C : Matrix (Fin 3) (Fin 3) ℚ

/-- One stencil visit's group of `atomicAdd`s: add `d.2` into the cell at
flattened index `d.1`. -/
def addDeposit (g : Grid) (d : ℤ × Cell) : Grid :=
  fun c => g c + if c = d.1 then d.2 else 0

/-- Apply a list of atomic-add deposits in order. -/
def applyDeposits (g : Grid) (l : List (ℤ × Cell)) : Grid := l.foldl addDeposit g

/-- The grid holding exactly one deposit on top of the cleared grid. -/
def singleDeposit (d : ℤ × Cell) : Grid := fun c => if c = d.1 then d.2 else 0

/-- `velContrib = massContrib * (particleVelocity + Q)` with
`Q = C * cellDist` and `massContrib = weight` (lines 701–706). -/
def velContrib (q : Particle) (o : Offset) : Vec3 :=
  fun a => weightOf q.position o *
    (q.velocity a + q.C.mulVec (cellDist q.position o) a)

/-- The four encoded values one P2G1 stencil visit atomically adds
(lines 714–717). -/
def p2g1Deposit (q : Particle) (o : Offset) : Cell :=
  ![encodeFixedPoint (velContrib q o 0), encodeFixedPoint (velContrib q o 1),
    encodeFixedPoint (velContrib q o 2),
    encodeFixedPoint (weightOf q.position o)]

/-- All 27 deposits of one particle's P2G1 loop, in loop order. -/
def p2g1DepositList (q : Particle) : List (ℤ × Cell) :=
  stencilIdx.map fun o => (cellPtr q.position o, p2g1Deposit q o)

/-- `p2g1Kernel` over a list of active particles, starting from the grid
cleared by `clearGridKernel` (lines 649–660). -/
def p2g1Run (ps : List Particle) : Grid :=
  ps.foldl (fun g q => applyDeposits g (p2g1DepositList q)) 0

/-- `density = Σ decode(mass) * weight` over the stencil (lines 747–766),
reading the mass accumulated by P2G1. -/
def densityOf (g : Grid) (q : Particle) : ℚ :=
  (stencilIdx.map fun o =>
    decodeFixedPoint (g (cellPtr q.position o) 3) * weightOf q.position o).sum

/-- `pressure = 0.0` (line 769). -/
def pressure : ℚ := 0

/-- `stress = mat3(-pressure, …) + (C + Cᵀ) * viscosity`
(lines 770–781). -/
def stressOf (visc : ℚ) (q : Particle) : Matrix (Fin 3) (Fin 3) ℚ :=
  Matrix.diagonal (fun _ => -pressure) + visc • (q.C + q.C.transpose)

/-- `eq16Term0 = volume * (-4) * stress * dt` with `volume = 1 / density`
(lines 768, 782). -/
def eq16Term0 (g : Grid) (visc dt : ℚ) (q : Particle) :
    Matrix (Fin 3) (Fin 3) ℚ :=
  (1 / densityOf g q * (-4) * dt) • stressOf visc q

/-- `momentum = eq16Term0 * weight * cellDist` (lines 796–799). -/
def p2g2Momentum (g : Grid) (visc dt : ℚ) (q : Particle) (o : Offset) : Vec3 :=
  (weightOf q.position o • eq16Term0 g visc dt q).mulVec (cellDist q.position o)

/-- The three encoded momentum values one P2G2 stencil visit atomically
adds; the mass field is untouched (lines 807–809). -/
def p2g2Deposit (g : Grid) (visc dt : ℚ) (q : Particle) (o : Offset) : Cell :=
  ![encodeFixedPoint (p2g2Momentum g visc dt q o 0),
    encodeFixedPoint (p2g2Momentum g visc dt q o 1),
    encodeFixedPoint (p2g2Momentum g visc dt q o 2), 0]

/-- All 27 deposits of one particle's P2G2 scatter loop. -/
def p2g2DepositList (base : Grid) (visc dt : ℚ) (q : Particle) :
    List (ℤ × Cell) :=
  stencilIdx.map fun o => (cellPtr q.position o, p2g2Deposit base visc dt q o)

/-- `p2g2Kernel` over the active particles.  Each particle's density loads
read the mass accumulated by P2G1 (`base`); since P2G2 stores only into the
momentum fields and reads only the mass field, reading from `base` while
the momentum deposits accumulate on the same buffer is exact. -/
def p2g2Run (base : Grid) (visc dt : ℚ) (ps : List Particle) : Grid :=
  ps.foldl (fun g q => applyDeposits g (p2g2DepositList base visc dt q)) base

/-- `updateGridKernel` (lines 817–849): decode the cell mass; bail out on
nonpositive mass; otherwise momentum/mass, with the velocity component
zeroed on any axis whose lattice coordinate is in the one-cell border;
`none` models the early `Return` that leaves `cellBufferFloat` unwritten. -/
def updateGridKernel (idx : ℕ) (c : Cell) : Option (Fin 4 → ℚ) :=
  if (64 * 64 * 64 : ℕ) ≤ idx then none
  else
    let mass := decodeFixedPoint (c 3)
    if mass ≤ 0 then none
    else
      let x := idx / (64 * 64)
      let y := idx / 64 % 64
      let z := idx % 64
      let vx := if x < 1 ∨ 64 - 2 < x then 0 else decodeFixedPoint (c 0) / mass
      let vy := if y < 1 ∨ 64 - 2 < y then 0 else decodeFixedPoint (c 1) / mass
      let vz := if z < 1 ∨ 64 - 2 < z then 0 else decodeFixedPoint (c 2) / mass
      some ![vx, vy, vz, mass]

/-! ### Algebra of deposit accumulation -/

theorem addDeposit_eq (g : Grid) (d : ℤ × Cell) :
    addDeposit g d = g + singleDeposit d := rfl

theorem applyDeposits_eq (l : List (ℤ × Cell)) (g : Grid) :
    applyDeposits g l = g + (l.map singleDeposit).sum := by
  induction l generalizing g with
  | nil => simp [applyDeposits]
  | cons d l ih =>
      have h1 : applyDeposits g (d :: l) = applyDeposits (addDeposit g d) l := rfl
      rw [h1, ih, addDeposit_eq]
      simp [add_assoc]

/-- The whole-grid contribution of one particle's P2G1 loop. -/
def particleGrid (q : Particle) : Grid :=
  ((p2g1DepositList q).map singleDeposit).sum

/-- The whole-grid contribution of one particle's P2G2 scatter loop. -/
def particleGrid2 (base : Grid) (visc dt : ℚ) (q : Particle) : Grid :=
  ((p2g2DepositList base visc dt q).map singleDeposit).sum

theorem foldl_applyDeposits (F : Particle → List (ℤ × Cell))
    (ps : List Particle) (g : Grid) :
    ps.foldl (fun g q => applyDeposits g (F q)) g =
      g + (ps.map fun q => ((F q).map singleDeposit).sum).sum := by
  induction ps generalizing g with
  | nil => simp
  | cons q ps ih =>
      simp only [List.foldl_cons, List.map_cons, List.sum_cons]
      rw [ih, applyDeposits_eq]
      simp [add_assoc]

theorem p2g1Run_eq (ps : List Particle) :
    p2g1Run ps = (ps.map particleGrid).sum := by
  rw [p2g1Run, foldl_applyDeposits]
  simp only [zero_add]
  rfl

theorem p2g2Run_eq (base : Grid) (visc dt : ℚ) (ps : List Particle) :
    p2g2Run base visc dt ps =
      base + (ps.map (particleGrid2 base visc dt)).sum := by
  rw [p2g2Run, foldl_applyDeposits]
  rfl

/-- C7: permuting the iteration order of the active particles in P2G1 and
P2G2 leaves every final integer accumulator value (momentum x/y/z and mass)
unchanged: the per-cell updates are integer additions, which commute. -/
theorem p2g_order_independence (visc dt : ℚ) (ps qs : List Particle)
    (h : ps.Perm qs) :
    p2g1Run ps = p2g1Run qs ∧
    p2g2Run (p2g1Run ps) visc dt ps = p2g2Run (p2g1Run qs) visc dt qs := by
  have h1 : p2g1Run ps = p2g1Run qs := by
    rw [p2g1Run_eq, p2g1Run_eq]
    exact List.Perm.sum_eq (h.map particleGrid)
  refine ⟨h1, ?_⟩
  rw [p2g2Run_eq, p2g2Run_eq, h1]
  congr 1
  exact List.Perm.sum_eq (h.map _)

theorem p2g_order_independence_witness :
    p2g1Run [⟨fun _ => 1/2, fun _ => 0, 0⟩, ⟨fun _ => 1/4, fun _ => 1, 0⟩] =
      p2g1Run [⟨fun _ => 1/4, fun _ => 1, 0⟩, ⟨fun _ => 1/2, fun _ => 0, 0⟩] ∧
    p2g2Run
        (p2g1Run [⟨fun _ => 1/2, fun _ => 0, 0⟩, ⟨fun _ => 1/4, fun _ => 1, 0⟩])
        (1/2) (1/60)
        [⟨fun _ => 1/2, fun _ => 0, 0⟩, ⟨fun _ => 1/4, fun _ => 1, 0⟩] =
      p2g2Run
        (p2g1Run [⟨fun _ => 1/4, fun _ => 1, 0⟩, ⟨fun _ => 1/2, fun _ => 0, 0⟩])
        (1/2) (1/60)
        [⟨fun _ => 1/4, fun _ => 1, 0⟩, ⟨fun _ => 1/2, fun _ => 0, 0⟩] :=
  p2g_order_independence (1/2) (1/60) _ _
    (List.Perm.swap (⟨fun _ => 1/4, fun _ => 1, 0⟩ : Particle)
      (⟨fun _ => 1/2, fun _ => 0, 0⟩ : Particle) [])

/-! ### Weight facts -/

theorem cellDiff_mem (p : Vec3) (a : Fin 3) :
    -(1/2) ≤ cellDiff p a ∧ cellDiff p a < 1/2 := by
  unfold cellDiff
  constructor
  · have := Int.fract_nonneg (gridPosition p a)
    linarith
  · have := Int.fract_lt_one (gridPosition p a)
    linarith

theorem axisWeights_nonneg {d : ℚ} (hlo : -(1/2) ≤ d) (hhi : d < 1/2)
    (i : Fin 3) : 0 ≤ axisWeights d i := by
  fin_cases i <;>
    simp [axisWeights, w0, w1, w2] <;>
    nlinarith [mul_self_nonneg (1/2 - d), mul_self_nonneg (1/2 + d)]

theorem weightOf_nonneg (p : Vec3) (o : Offset) : 0 ≤ weightOf p o := by
  unfold weightOf
  have h0 := cellDiff_mem p 0
  have h1 := cellDiff_mem p 1
  have h2 := cellDiff_mem p 2
  exact mul_nonneg (mul_nonneg (axisWeights_nonneg h0.1 h0.2 _)
    (axisWeights_nonneg h1.1 h1.2 _)) (axisWeights_nonneg h2.1 h2.2 _)

theorem stencil_weight_sum (p : Vec3) : (stencilIdx.map (weightOf p)).sum = 1 := by
  simp only [stencilIdx, weightOf, axisWeights, List.map_cons, List.map_nil,
    List.sum_cons, List.sum_nil, Matrix.cons_val_zero, Matrix.cons_val_one,
    Matrix.head_cons, Matrix.cons_val_two, Matrix.tail_cons]
  unfold w0 w1 w2
  ring

/-! ### Floor-sum bounds -/

theorem sum_floor_le (l : List ℚ) :
    (l.map fun x => (⌊x⌋ : ℚ)).sum ≤ l.sum := by
  induction l with
  | nil => simp
  | cons x l ih =>
      simp only [List.map_cons, List.sum_cons]
      have := Int.floor_le x
      linarith

theorem sum_sub_length_le_sum_floor (l : List ℚ) :
    l.sum - l.length ≤ (l.map fun x => (⌊x⌋ : ℚ)).sum := by
  induction l with
  | nil => simp
  | cons x l ih =>
      simp only [List.map_cons, List.sum_cons, List.length_cons]
      have := Int.sub_one_lt_floor x
      push_cast
      linarith

theorem list_sum_map_mul (l : List Offset) (f : Offset → ℚ) (c : ℚ) :
    (l.map fun o => f o * c).sum = (l.map f).sum * c := by
  induction l with
  | nil => simp
  | cons o l ih => simp [List.map_cons, List.sum_cons, ih, add_mul]

/-- Per-particle bound: a particle's 27 encoded mass deposits sum to at
most `SCALE` and to more than `SCALE - 27` (each term loses less than one
fixed-point unit to truncation, and the exact weights sum to 1). -/
theorem mass_encode_sum_bounds (q : Particle) :
    fixedPointMultiplier - 27 ≤
      (((stencilIdx.map fun o =>
          encodeFixedPoint (weightOf q.position o)).sum : ℤ) : ℚ) ∧
    (((stencilIdx.map fun o =>
        encodeFixedPoint (weightOf q.position o)).sum : ℤ) : ℚ) ≤
      fixedPointMultiplier := by
  have hM : (0 : ℚ) ≤ fixedPointMultiplier := by norm_num [fixedPointMultiplier]
  have hcast : (((stencilIdx.map fun o =>
      encodeFixedPoint (weightOf q.position o)).sum : ℤ) : ℚ) =
      ((stencilIdx.map fun o => weightOf q.position o * fixedPointMultiplier).map
        fun x => (⌊x⌋ : ℚ)).sum := by
    rw [Int.cast_list_sum, List.map_map, List.map_map]
    refine congrArg _ (List.map_congr_left fun o _ => ?_)
    simp only [Function.comp_apply, encodeFixedPoint,
      truncZ_of_nonneg (mul_nonneg (weightOf_nonneg q.position o) hM)]
  have hsum : (stencilIdx.map fun o =>
      weightOf q.position o * fixedPointMultiplier).sum = fixedPointMultiplier := by
    rw [list_sum_map_mul, stencil_weight_sum, one_mul]
  have hlen : ((stencilIdx.map fun o =>
      weightOf q.position o * fixedPointMultiplier).length : ℚ) = 27 := by
    simp [stencilIdx]
  constructor
  · rw [hcast]
    have := sum_sub_length_le_sum_floor
      (stencilIdx.map fun o => weightOf q.position o * fixedPointMultiplier)
    rw [hsum, hlen] at this
    linarith
  · rw [hcast]
    have := sum_floor_le
      (stencilIdx.map fun o => weightOf q.position o * fixedPointMultiplier)
    rw [hsum] at this
    linarith

theorem total_mass_encode_bounds (ps : List Particle) :
    (ps.length : ℚ) * (fixedPointMultiplier - 27) ≤
      (((ps.map fun q => (stencilIdx.map fun o =>
          encodeFixedPoint (weightOf q.position o)).sum).sum : ℤ) : ℚ) ∧
    (((ps.map fun q => (stencilIdx.map fun o =>
        encodeFixedPoint (weightOf q.position o)).sum).sum : ℤ) : ℚ) ≤
      (ps.length : ℚ) * fixedPointMultiplier := by
  induction ps with
  | nil => simp
  | cons q ps ih =>
      have hq := mass_encode_sum_bounds q
      simp only [List.map_cons, List.sum_cons, List.length_cons]
      push_cast
      push_cast at ih hq
      rw [show fixedPointMultiplier = 10000000 from rfl] at ih hq ⊢
      constructor
      · nlinarith [ih.1, hq.1]
      · nlinarith [ih.2, hq.2]

/-! ### Summing the grid over a finite cell set -/

theorem grid_apply_sum (l : List Grid) (c : ℤ) (a : Fin 4) :
    l.sum c a = (l.map fun g => g c a).sum := by
  induction l with
  | nil => rfl
  | cons g l ih => simp [List.sum_cons, ih]

theorem finset_sum_singleDeposit (S : Finset ℤ) (d : ℤ × Cell) (a : Fin 4)
    (hd : d.1 ∈ S) : (∑ c ∈ S, singleDeposit d c a) = d.2 a := by
  unfold singleDeposit
  have h : ∀ c ∈ S, (if c = d.1 then d.2 else 0) a =
      if c = d.1 then d.2 a else 0 := fun c _ => apply_ite (fun v : Cell => v a) _ _ _
  rw [Finset.sum_congr rfl h, Finset.sum_ite_eq' S d.1 fun _ => d.2 a, if_pos hd]

theorem finset_sum_list_sum {α M : Type*} [AddCommMonoid M] (S : Finset ℤ)
    (l : List α) (f : α → ℤ → M) :
    (∑ c ∈ S, (l.map fun o => f o c).sum) =
      (l.map fun o => ∑ c ∈ S, f o c).sum := by
  induction l with
  | nil => simp
  | cons o l ih =>
      simp only [List.map_cons, List.sum_cons, Finset.sum_add_distrib, ih]

theorem finset_sum_particleGrid (S : Finset ℤ) (q : Particle) (a : Fin 4)
    (hq : ∀ o ∈ stencilIdx, cellPtr q.position o ∈ S) :
    (∑ c ∈ S, particleGrid q c a) =
      (stencilIdx.map fun o => p2g1Deposit q o a).sum := by
  unfold particleGrid p2g1DepositList
  rw [List.map_map]
  have h1 : ∀ c ∈ S, ((stencilIdx.map
      (singleDeposit ∘ fun o => (cellPtr q.position o, p2g1Deposit q o))).sum) c a =
      (stencilIdx.map fun o =>
        singleDeposit (cellPtr q.position o, p2g1Deposit q o) c a).sum := by
    intro c _
    rw [grid_apply_sum, List.map_map]
    rfl
  rw [Finset.sum_congr rfl h1, finset_sum_list_sum]
  exact congrArg _ (List.map_congr_left fun o ho =>
    finset_sum_singleDeposit S _ a (hq o ho))

/-- C3: for any list of active particles, each depositing unit mass, the
total decoded mass over any cell set `S` containing every stencil target
equals the particle count to within one decode epsilon (`1/SCALE`) per
accumulated term (27 terms per particle): the exact per-particle quadratic
B-spline weights sum to 1, and each truncated deposit loses less than one
fixed-point unit. -/
theorem p2g1_mass_conservation (ps : List Particle) (S : Finset ℤ)
    (hS : ∀ q ∈ ps, ∀ o ∈ stencilIdx, cellPtr q.position o ∈ S) :
    |(∑ c ∈ S, decodeFixedPoint (p2g1Run ps c 3)) - (ps.length : ℚ)| ≤
      27 * (ps.length : ℚ) / fixedPointMultiplier := by
  have h1 : ∀ c, p2g1Run ps c 3 = (ps.map fun q => particleGrid q c 3).sum := by
    intro c
    rw [p2g1Run_eq, grid_apply_sum, List.map_map]
    rfl
  have h3 : ∀ (q : Particle) (o : Offset),
      p2g1Deposit q o 3 = encodeFixedPoint (weightOf q.position o) :=
    fun q o => rfl
  have h2 : (∑ c ∈ S, p2g1Run ps c 3) =
      (ps.map fun q => (stencilIdx.map fun o =>
        encodeFixedPoint (weightOf q.position o)).sum).sum := by
    simp only [h1]
    rw [finset_sum_list_sum S ps fun q c => particleGrid q c 3]
    refine congrArg _ (List.map_congr_left fun q hq => ?_)
    rw [finset_sum_particleGrid S q 3 (hS q hq)]
    simp only [h3]
  have h4 : (∑ c ∈ S, decodeFixedPoint (p2g1Run ps c 3)) =
      (((∑ c ∈ S, p2g1Run ps c 3) : ℤ) : ℚ) / fixedPointMultiplier := by
    unfold decodeFixedPoint
    rw [← Finset.sum_div]
    congr 1
    push_cast
    rfl
  have hb := total_mass_encode_bounds ps
  rw [h4, h2]
  rw [show fixedPointMultiplier = 10000000 from rfl] at hb ⊢
  have hN : (0 : ℚ) ≤ (ps.length : ℚ) := Nat.cast_nonneg _
  have e : (((ps.map fun q => (stencilIdx.map fun o =>
      encodeFixedPoint (weightOf q.position o)).sum).sum : ℤ) : ℚ) / 10000000 -
        (ps.length : ℚ) =
      ((((ps.map fun q => (stencilIdx.map fun o =>
        encodeFixedPoint (weightOf q.position o)).sum).sum : ℤ) : ℚ) -
          (ps.length : ℚ) * 10000000) / 10000000 := by
    field_simp
    ring
  rw [e, abs_div, abs_of_pos (by norm_num : (0:ℚ) < 10000000)]
  have habs : |(((ps.map fun q => (stencilIdx.map fun o =>
      encodeFixedPoint (weightOf q.position o)).sum).sum : ℤ) : ℚ) -
        (ps.length : ℚ) * 10000000| ≤ 27 * (ps.length : ℚ) := by
    rw [abs_le]
    constructor
    · nlinarith [hb.1]
    · nlinarith [hb.2]
  calc |(((ps.map fun q => (stencilIdx.map fun o =>
      encodeFixedPoint (weightOf q.position o)).sum).sum : ℤ) : ℚ) -
        (ps.length : ℚ) * 10000000| / 10000000
      ≤ 27 * (ps.length : ℚ) / 10000000 := by gcongr
    _ = 27 * (ps.length : ℚ) / 10000000 := rfl

theorem p2g1_mass_conservation_witness :
    (∀ q ∈ ([⟨fun _ => 1/2, fun _ => 0, 0⟩] : List Particle),
      ∀ o ∈ stencilIdx, cellPtr q.position o ∈
        ((p2g1DepositList ⟨fun _ => 1/2, fun _ => 0, 0⟩).map Prod.fst).toFinset) ∧
    |(∑ c ∈ ((p2g1DepositList ⟨fun _ => 1/2, fun _ => 0, 0⟩).map Prod.fst).toFinset,
        decodeFixedPoint (p2g1Run [⟨fun _ => 1/2, fun _ => 0, 0⟩] c 3)) -
      (([⟨fun _ => 1/2, fun _ => 0, 0⟩] : List Particle).length : ℚ)| ≤
      27 * (([⟨fun _ => 1/2, fun _ => 0, 0⟩] : List Particle).length : ℚ) /
        fixedPointMultiplier := by
  have hS : ∀ q ∈ ([⟨fun _ => 1/2, fun _ => 0, 0⟩] : List Particle),
      ∀ o ∈ stencilIdx, cellPtr q.position o ∈
        ((p2g1DepositList ⟨fun _ => 1/2, fun _ => 0, 0⟩).map Prod.fst).toFinset := by
    intro q hq o ho
    rw [List.mem_singleton] at hq
    subst hq
    exact List.mem_toFinset.2
      (List.mem_map_of_mem Prod.fst (List.mem_map_of_mem _ ho))
  exact ⟨hS, p2g1_mass_conservation _ _ hS⟩

/-! ### Grid update (C5) and division guards (C6) -/

/-- C5: for every cell of decoded mass strictly positive, the grid-update
kernel stores decoded momentum divided by mass as the velocity, zeroing the
component on any axis whose lattice coordinate (recovered from the
flattened index `x·64² + y·64 + z`) is `< 1` or `> 64 - 2`, together with
the mass as the fourth component. -/
theorem updateGrid_velocity_boundary (x y z : ℕ) (hx : x < 64) (hy : y < 64)
    (hz : z < 64) (c : Cell) (hm : 0 < decodeFixedPoint (c 3)) :
    updateGridKernel (x * (64 * 64) + y * 64 + z) c =
      some ![if x < 1 ∨ 62 < x then 0
               else decodeFixedPoint (c 0) / decodeFixedPoint (c 3),
             if y < 1 ∨ 62 < y then 0
               else decodeFixedPoint (c 1) / decodeFixedPoint (c 3),
             if z < 1 ∨ 62 < z then 0
               else decodeFixedPoint (c 2) / decodeFixedPoint (c 3),
             decodeFixedPoint (c 3)] := by
  have hidx : ¬ (64 * 64 * 64 : ℕ) ≤ x * (64 * 64) + y * 64 + z := by omega
  have hx2 : (x * (64 * 64) + y * 64 + z) / (64 * 64) = x := by omega
  have hy2 : (x * (64 * 64) + y * 64 + z) / 64 % 64 = y := by omega
  have hz2 : (x * (64 * 64) + y * 64 + z) % 64 = z := by omega
  have hm2 : ¬ decodeFixedPoint (c 3) ≤ 0 := not_le.2 hm
  simp only [updateGridKernel, hidx, if_false, hx2, hy2, hz2, hm2]

theorem updateGrid_velocity_boundary_witness :
    (0 : ℚ) < decodeFixedPoint ((![20000000, 30000000, 0, 10000000] : Cell) 3) ∧
    updateGridKernel (0 * (64 * 64) + 5 * 64 + 5)
        ![20000000, 30000000, 0, 10000000] =
      some ![if (0 : ℕ) < 1 ∨ 62 < (0 : ℕ) then 0
               else decodeFixedPoint ((![20000000, 30000000, 0, 10000000] : Cell) 0) /
                 decodeFixedPoint ((![20000000, 30000000, 0, 10000000] : Cell) 3),
             if (5 : ℕ) < 1 ∨ 62 < (5 : ℕ) then 0
               else decodeFixedPoint ((![20000000, 30000000, 0, 10000000] : Cell) 1) /
                 decodeFixedPoint ((![20000000, 30000000, 0, 10000000] : Cell) 3),
             if (5 : ℕ) < 1 ∨ 62 < (5 : ℕ) then 0
               else decodeFixedPoint ((![20000000, 30000000, 0, 10000000] : Cell) 2) /
                 decodeFixedPoint ((![20000000, 30000000, 0, 10000000] : Cell) 3),
             decodeFixedPoint ((![20000000, 30000000, 0, 10000000] : Cell) 3)] := by
  have hm : (0 : ℚ) <
      decodeFixedPoint ((![20000000, 30000000, 0, 10000000] : Cell) 3) := by
    norm_num [decodeFixedPoint, fixedPointMultiplier,
      show ((![20000000, 30000000, 0, 10000000] : Cell) 3) = 10000000 from rfl]
  exact ⟨hm, updateGrid_velocity_boundary 0 5 5 (by norm_num) (by norm_num)
    (by norm_num) _ hm⟩

theorem singleDeposit_apply (d : ℤ × Cell) (c : ℤ) (a : Fin 4) :
    singleDeposit d c a = if c = d.1 then d.2 a else 0 := by
  unfold singleDeposit
  split <;> simp

theorem encodeFixedPoint_nonneg {f : ℚ} (hf : 0 ≤ f) :
    0 ≤ encodeFixedPoint f := by
  have h : (0 : ℚ) ≤ f * fixedPointMultiplier :=
    mul_nonneg hf (by norm_num [fixedPointMultiplier])
  unfold encodeFixedPoint
  rw [truncZ_of_nonneg h]
  exact Int.floor_nonneg.2 h

theorem p2g1Deposit_mass_nonneg (q : Particle) (o : Offset) :
    0 ≤ p2g1Deposit q o 3 :=
  encodeFixedPoint_nonneg (weightOf_nonneg q.position o)

theorem particleGrid_mass_nonneg (q : Particle) (c : ℤ) :
    0 ≤ particleGrid q c 3 := by
  unfold particleGrid p2g1DepositList
  rw [grid_apply_sum, List.map_map, List.map_map]
  apply List.sum_nonneg
  intro v hv
  rw [List.mem_map] at hv
  obtain ⟨o, _, rfl⟩ := hv
  simp only [Function.comp_apply, singleDeposit_apply]
  split
  · exact p2g1Deposit_mass_nonneg q o
  · exact le_refl 0

theorem p2g1Run_mass_nonneg (ps : List Particle) (c : ℤ) :
    0 ≤ p2g1Run ps c 3 := by
  rw [p2g1Run_eq, grid_apply_sum, List.map_map]
  apply List.sum_nonneg
  intro v hv
  rw [List.mem_map] at hv
  obtain ⟨q, _, rfl⟩ := hv
  exact particleGrid_mass_nonneg q c

theorem particleGrid_mass_ge (q : Particle) (o : Offset) (ho : o ∈ stencilIdx) :
    encodeFixedPoint (weightOf q.position o) ≤
      particleGrid q (cellPtr q.position o) 3 := by
  unfold particleGrid p2g1DepositList
  rw [grid_apply_sum, List.map_map, List.map_map]
  have hnn : ∀ v ∈ stencilIdx.map ((fun g : Grid => g (cellPtr q.position o) 3) ∘
      singleDeposit ∘ fun o' => (cellPtr q.position o', p2g1Deposit q o')),
      0 ≤ v := by
    intro v hv
    rw [List.mem_map] at hv
    obtain ⟨o', _, rfl⟩ := hv
    simp only [Function.comp_apply, singleDeposit_apply]
    split
    · exact p2g1Deposit_mass_nonneg q o'
    · exact le_refl 0
  have hmem : ((fun g : Grid => g (cellPtr q.position o) 3) ∘ singleDeposit ∘
      fun o' => (cellPtr q.position o', p2g1Deposit q o')) o ∈
      stencilIdx.map ((fun g : Grid => g (cellPtr q.position o) 3) ∘
        singleDeposit ∘ fun o' => (cellPtr q.position o', p2g1Deposit q o')) :=
    List.mem_map_of_mem _ ho
  have hx := List.single_le_sum hnn _ hmem
  calc encodeFixedPoint (weightOf q.position o)
      = ((fun g : Grid => g (cellPtr q.position o) 3) ∘ singleDeposit ∘
          fun o' => (cellPtr q.position o', p2g1Deposit q o')) o := by
        simp [singleDeposit_apply]
        rfl
    _ ≤ _ := hx

theorem p2g1Run_mass_ge_own (ps : List Particle) (q : Particle) (hq : q ∈ ps)
    (o : Offset) (ho : o ∈ stencilIdx) :
    encodeFixedPoint (weightOf q.position o) ≤
      p2g1Run ps (cellPtr q.position o) 3 := by
  refine le_trans (particleGrid_mass_ge q o ho) ?_
  rw [p2g1Run_eq, grid_apply_sum, List.map_map]
  refine List.single_le_sum ?_ _ (List.mem_map_of_mem _ hq)
  intro v hv
  rw [List.mem_map] at hv
  obtain ⟨q', _, rfl⟩ := hv
  exact particleGrid_mass_nonneg q' _

theorem weight_center_ge (p : Vec3) : 1/8 ≤ weightOf p (1, 1, 1) := by
  have h : ∀ a : Fin 3, 1/2 ≤ axisWeights (cellDiff p a) 1 := by
    intro a
    have hd := cellDiff_mem p a
    simp only [axisWeights, Matrix.cons_val_one, Matrix.head_cons, w1]
    nlinarith [hd.1, hd.2]
  have h0 := h 0
  have h1 := h 1
  have h2 := h 2
  unfold weightOf
  have hAB : 1/4 ≤ axisWeights (cellDiff p 0) 1 * axisWeights (cellDiff p 1) 1 := by
    nlinarith
  nlinarith

theorem densityOf_pos (ps : List Particle) (q : Particle) (hq : q ∈ ps) :
    0 < densityOf (p2g1Run ps) q := by
  unfold densityOf
  have hnn : ∀ v ∈ stencilIdx.map fun o =>
      decodeFixedPoint (p2g1Run ps (cellPtr q.position o) 3) * weightOf q.position o,
      0 ≤ v := by
    intro v hv
    rw [List.mem_map] at hv
    obtain ⟨o, _, rfl⟩ := hv
    refine mul_nonneg ?_ (weightOf_nonneg q.position o)
    unfold decodeFixedPoint
    have h := p2g1Run_mass_nonneg ps (cellPtr q.position o)
    apply div_nonneg
    · exact_mod_cast h
    · norm_num [fixedPointMultiplier]
  have hcenter : (1 : ℤ) ≤ p2g1Run ps (cellPtr q.position (1, 1, 1)) 3 := by
    refine le_trans ?_ (p2g1Run_mass_ge_own ps q hq (1, 1, 1) (by decide))
    have hw := weight_center_ge q.position
    have hnw : (0 : ℚ) ≤ weightOf q.position (1, 1, 1) := weightOf_nonneg _ _
    unfold encodeFixedPoint
    rw [truncZ_of_nonneg (mul_nonneg hnw (by norm_num [fixedPointMultiplier]))]
    refine Int.le_floor.2 ?_
    rw [show fixedPointMultiplier = 10000000 from rfl]
    push_cast
    nlinarith
  have hpos : 0 < decodeFixedPoint (p2g1Run ps (cellPtr q.position (1, 1, 1)) 3) *
      weightOf q.position (1, 1, 1) := by
    refine mul_pos ?_ (lt_of_lt_of_le (by norm_num) (weight_center_ge q.position))
    unfold decodeFixedPoint
    have : (1 : ℚ) ≤ (p2g1Run ps (cellPtr q.position (1, 1, 1)) 3 : ℚ) := by
      exact_mod_cast hcenter
    rw [show fixedPointMultiplier = 10000000 from rfl]
    positivity
  refine lt_of_lt_of_le hpos (List.single_le_sum hnn _ ?_)
  exact List.mem_map_of_mem _ (by decide)

/-- C6: no division by zero: the grid-update kernel returns without
dividing or writing the float cell whenever the decoded mass is ≤ 0, and in
P2G2 the stencil-summed density of every active particle, computed from the
grid P2G1 produced, is strictly positive (the particle's own deposited
weight keeps it above zero), so `volume = 1 / density` is well defined. -/
theorem division_by_zero_guards :
    (∀ (idx : ℕ) (c : Cell), decodeFixedPoint (c 3) ≤ 0 →
      updateGridKernel idx c = none) ∧
    (∀ (ps : List Particle) (q : Particle), q ∈ ps →
      0 < densityOf (p2g1Run ps) q) := by
  constructor
  · intro idx c h
    unfold updateGridKernel
    split
    · rfl
    · simp [h]
  · exact fun ps q hq => densityOf_pos ps q hq

theorem division_by_zero_guards_witness :
    decodeFixedPoint ((fun _ => 0 : Cell) 3) ≤ 0 ∧
    updateGridKernel 0 (fun _ => 0) = none ∧
    (⟨fun _ => 1/2, fun _ => 0, 0⟩ : Particle) ∈
      ([⟨fun _ => 1/2, fun _ => 0, 0⟩] : List Particle) ∧
    0 < densityOf (p2g1Run [⟨fun _ => 1/2, fun _ => 0, 0⟩])
        ⟨fun _ => 1/2, fun _ => 0, 0⟩ := by
  have h0 : decodeFixedPoint ((fun _ => 0 : Cell) 3) ≤ 0 := by
    norm_num [decodeFixedPoint]
  have hm : (⟨fun _ => 1/2, fun _ => 0, 0⟩ : Particle) ∈
      ([⟨fun _ => 1/2, fun _ => 0, 0⟩] : List Particle) :=
    List.mem_singleton.2 rfl
  exact ⟨h0, division_by_zero_guards.1 0 _ h0, hm,
    division_by_zero_guards.2 _ _ hm⟩

/-! ### Pointer-force update (render loop lines 1175–1183)

The pointer displacement and its length are floating-point values; they
are modelled exactly over `ℝ`, since the vector length needs a square
root. -/

/-- A 3-component real vector. -/
abbrev Vec3R := Fin 3 → ℝ

/-- The `length()` of a three.js vector. -/
noncomputable def length3 (v : Vec3R) : ℝ :=
  Real.sqrt (v 0 ^ 2 + v 1 ^ 2 + v 2 ^ 2)

/-- `mouseForceUniform.value.copy(mouseCoord).sub(prevMouseCoord)
.multiplyScalar(10)` (lines 1175–1178): the frame-to-frame pointer
displacement scaled by 10. -/
noncomputable def rawMouseForce (prev cur : Vec3R) : Vec3R :=
  fun a => (cur a - prev a) * 10

/-- Lines 1179–1182: if the scaled displacement's length exceeds 0.3,
multiply it by `10 / length`. -/
noncomputable def mouseForce (prev cur : Vec3R) : Vec3R :=
  if 3/10 < length3 (rawMouseForce prev cur)
  then fun a => rawMouseForce prev cur a * (10 / length3 (rawMouseForce prev cur))
  else rawMouseForce prev cur

theorem length3_smul (v : Vec3R) (c : ℝ) :
    length3 (fun a => v a * c) = |c| * length3 v := by
  unfold length3
  rw [show (v 0 * c) ^ 2 + (v 1 * c) ^ 2 + (v 2 * c) ^ 2 =
        c ^ 2 * (v 0 ^ 2 + v 1 ^ 2 + v 2 ^ 2) by ring,
      Real.sqrt_mul (sq_nonneg c), Real.sqrt_sq_eq_abs]

/-- C9 (amended): the scaled pointer displacement is passed through only
when its magnitude is at most 0.3; any vector of magnitude above 0.3 — not
10 — is rescaled to magnitude exactly 10, its direction preserved (the
result is a positive multiple of the displacement).  In particular
magnitudes in (0.3, 10] are boosted up to 10 rather than passed through. -/
theorem mouseForce_clamp (prev cur : Vec3R) :
    (length3 (rawMouseForce prev cur) ≤ 3/10 →
      mouseForce prev cur = rawMouseForce prev cur) ∧
    (3/10 < length3 (rawMouseForce prev cur) →
      length3 (mouseForce prev cur) = 10 ∧
      ∃ t : ℝ, 0 < t ∧
        mouseForce prev cur = fun a => rawMouseForce prev cur a * t) := by
  constructor
  · intro h
    unfold mouseForce
    rw [if_neg (not_lt.2 h)]
  · intro h
    have hL : 0 < length3 (rawMouseForce prev cur) := lt_trans (by norm_num) h
    have hforce : mouseForce prev cur =
        fun a => rawMouseForce prev cur a *
          (10 / length3 (rawMouseForce prev cur)) := by
      unfold mouseForce
      rw [if_pos h]
    refine ⟨?_, 10 / length3 (rawMouseForce prev cur),
      div_pos (by norm_num) hL, hforce⟩
    rw [hforce, length3_smul,
      abs_of_pos (div_pos (by norm_num) hL),
      div_mul_cancel₀ 10 (ne_of_gt hL)]

/-- C9 fails as stated: the scaled displacement `(2/5, 0, 0)` has magnitude
`2/5 ≤ 10`, so the claim says it is passed through unchanged, yet the code
rescales it (its x component becomes 10, not 2/5): the rescale threshold in
the code is 0.3, not 10. -/
theorem mouseForce_claim_counterexample :
    length3 (rawMouseForce 0 ![1/25, 0, 0]) ≤ 10 ∧
    mouseForce 0 ![1/25, 0, 0] 0 ≠ rawMouseForce 0 ![1/25, 0, 0] 0 := by
  have hraw : ∀ a, rawMouseForce 0 ![1/25, 0, 0] a = (![2/5, 0, 0] : Vec3R) a := by
    intro a
    fin_cases a <;> norm_num [rawMouseForce]
  have hlen : length3 (rawMouseForce 0 ![1/25, 0, 0]) = 2/5 := by
    unfold length3
    rw [hraw 0, hraw 1, hraw 2]
    rw [show (![2/5, 0, 0] : Vec3R) 0 ^ 2 + (![2/5, 0, 0] : Vec3R) 1 ^ 2 +
          (![2/5, 0, 0] : Vec3R) 2 ^ 2 = (2/5 : ℝ) ^ 2 by norm_num,
        Real.sqrt_sq (by norm_num)]
  constructor
  · rw [hlen]
    norm_num
  · unfold mouseForce
    rw [if_pos (by rw [hlen]; norm_num)]
    rw [hlen, hraw 0]
    norm_num

theorem mouseForce_clamp_witness :
    (length3 (rawMouseForce 0 ![1/100, 0, 0]) ≤ 3/10 ∧
      mouseForce 0 ![1/100, 0, 0] = rawMouseForce 0 ![1/100, 0, 0]) ∧
    (3/10 < length3 (rawMouseForce 0 ![1, 0, 0]) ∧
      length3 (mouseForce 0 ![1, 0, 0]) = 10 ∧
      ∃ t : ℝ, 0 < t ∧
        mouseForce 0 ![1, 0, 0] = fun a => rawMouseForce 0 ![1, 0, 0] a * t) := by
  have hraw1 : ∀ a, rawMouseForce 0 ![1/100, 0, 0] a = (![1/10, 0, 0] : Vec3R) a := by
    intro a
    fin_cases a <;> norm_num [rawMouseForce]
  have hlen1 : length3 (rawMouseForce 0 ![1/100, 0, 0]) = 1/10 := by
    unfold length3
    rw [hraw1 0, hraw1 1, hraw1 2]
    rw [show (![1/10, 0, 0] : Vec3R) 0 ^ 2 + (![1/10, 0, 0] : Vec3R) 1 ^ 2 +
          (![1/10, 0, 0] : Vec3R) 2 ^ 2 = (1/10 : ℝ) ^ 2 by norm_num,
        Real.sqrt_sq (by norm_num)]
  have hraw2 : ∀ a, rawMouseForce 0 ![1, 0, 0] a = (![10, 0, 0] : Vec3R) a := by
    intro a
    fin_cases a <;> norm_num [rawMouseForce]
  have hlen2 : length3 (rawMouseForce 0 ![1, 0, 0]) = 10 := by
    unfold length3
    rw [hraw2 0, hraw2 1, hraw2 2]
    rw [show (![10, 0, 0] : Vec3R) 0 ^ 2 + (![10, 0, 0] : Vec3R) 1 ^ 2 +
          (![10, 0, 0] : Vec3R) 2 ^ 2 = (10 : ℝ) ^ 2 by norm_num,
        Real.sqrt_sq (by norm_num)]
  have h1 : length3 (rawMouseForce 0 ![1/100, 0, 0]) ≤ 3/10 := by
    rw [hlen1]
    norm_num
  have h2 : 3/10 < length3 (rawMouseForce 0 ![1, 0, 0]) := by
    rw [hlen2]
    norm_num
  exact ⟨⟨h1, (mouseForce_clamp 0 ![1/100, 0, 0]).1 h1⟩,
    ⟨h2, (mouseForce_clamp 0 ![1, 0, 0]).2 h2⟩⟩

end ParticleSim
